import Mathlib

/-!
Verification of the dcimv media-relocation watcher (src/main.rs).

We give a shallow embedding of the program core: the pure path and
extension policy, the Directory record, the watch-table bookkeeping
(the ordered map from watch descriptors to directories plus the inode
dedup set), the mover (emit), and the event loop (handle_rm, handle,
run), together with a small filesystem model: a set of file paths with
abstract contents, a set of directory paths, and a tree used by the
recursive directory traversal.

Machine integers (inode numbers, watch descriptors) are modelled as
Nat and Int; fallible operations return Except or Option; a Rust
process abort (an unwrap failure or an out-of-bounds index) is
modelled either by a dedicated result constructor or by an absorbing
dead flag on the world state, so that no effects are observed past it.
-/

namespace Dcimv

/-- The fixed image-extension set IMG_EXT_STRS of main.rs.  At startup
the program copies exactly these strings into its global IMG_EXTS set,
so membership in that set coincides with membership in this list. -/
def IMG_EXT_STRS : List String :=
  ["jpg", "jpeg", "png", "gif", "webp", "bmp", "tif", "tiff", "jxl", "apng"]

/-- ASCII lowercasing of one character, as OsStr::to_ascii_lowercase
does byte-wise: only the ASCII range A-Z is mapped. -/
def asciiLowerChar (c : Char) : Char :=
  if 'A' ≤ c ∧ c ≤ 'Z' then Char.ofNat (c.toNat + 32) else c

/-- ASCII lowercasing of a string (OsStr::to_ascii_lowercase). -/
def asciiLower (s : String) : String :=
  String.mk (s.data.map asciiLowerChar)

/-- The characters strictly after the last dot of the list, when the
list has a dot. -/
def lastDotSplit : List Char → Option (List Char)
| [] => none
| c :: rest =>
  match lastDotSplit rest with
  | some e => some e
  | none => if c = '.' then some rest else none

/-- Rust Path::extension on a single path component: the portion after
the final dot, where a dot in the first position does not separate an
extension (a hidden name such as .gitignore has no extension), and the
special components dot and dot-dot have no extension at all. -/
def pathExtension (name : String) : Option String :=
  if name = "." ∨ name = ".." then none
  else
    match name.data with
    | [] => none
    | _ :: rest =>
      match lastDotSplit rest with
      | some e => some (String.mk e)
      | none => none

/-- is_img_dir of main.rs: the first path component (the characters
before the first separator) ends with Camera or with _PRO, or equals
100ANDRO. -/
def is_img_dir (dir : String) : Bool :=
  let c := dir.data.takeWhile (fun ch => ch ≠ '/')
  List.isSuffixOf ("Camera".data) c || List.isSuffixOf ("_PRO".data) c
    || c == ("100ANDRO".data)

/-- is_ignored_dir of main.rs: only in in-place mode, a directory whose
bare name starts with DSC_20 is skipped. -/
def is_ignored_dir (name : String) (inplace : Bool) : Bool :=
  inplace && List.isPrefixOf ("DSC_20".data) name.data

/-- The hidden-entry check of main.rs, which reads the first byte of
the entry name by direct indexing (name.as_encoded_bytes()[0] == b'.').
Indexing an empty name is out of bounds (a Rust panic), so the check is
partial: none models the panic.  For UTF-8 names the first byte equals
the dot byte exactly when the first character is a dot, since every
non-ASCII character starts with a byte outside the ASCII range. -/
def hiddenCheck (name : String) : Option Bool :=
  (name.data.head?).map (fun c => c == '.')

/-- One watched directory (struct Directory of main.rs): the relative
path, the owning inode, the image-capability flag fixed at creation,
and the lazily-set destination-created flag (a Cell in the source). -/
structure Directory where
  path : String
  ino : Nat
  allow_img : Bool
  dst_created : Bool
deriving DecidableEq

/-- Directory::new: records the path and inode and computes allow_img
from the path; the destination flag starts false.  (The source also
asserts that the path is relative; every path the program constructs
is, starting from the root path given to the initial watch call.) -/
def Directory.new (path : String) (ino : Nat) : Directory :=
  { path := path, ino := ino, allow_img := is_img_dir path, dst_created := false }

/-- Directory::join / join_owned: join a bare file name under the
directory path, omitting a leading dot component. -/
def Directory.join (d : Directory) (name : String) : String :=
  if d.path = "." then name else d.path ++ "/" ++ name

/-- Directory::filter_name: true when the name has an extension whose
ASCII-lowercase form is mp4 or dng, or, when the directory is not
image-capable, is in the image-extension set. -/
def Directory.filter_name (d : Directory) (name : String) : Bool :=
  match pathExtension name with
  | none => false
  | some e =>
    let ext := asciiLower e
    if ext = "mp4" ∨ ext = "dng" then true
    else if !d.allow_img then decide (ext ∈ IMG_EXT_STRS)
    else false

/-- The flat filesystem model used by the mover: existing regular
files (paths paired with an abstract content tag) and existing
directory paths. -/
structure Fs where
  files : List (String × Nat)
  dirs : List String
deriving DecidableEq

/-- Whether a regular file exists at a path. -/
def Fs.hasFile (fs : Fs) (p : String) : Bool :=
  (List.lookup p fs.files).isSome

/-- fs::create_dir_all at a path (idempotent). -/
def Fs.mkdirAll (fs : Fs) (p : String) : Fs :=
  if p ∈ fs.dirs then fs else { fs with dirs := p :: fs.dirs }

/-- Drop every file entry at the given path. -/
def removeFile (l : List (String × Nat)) (p : String) : List (String × Nat) :=
  l.filter (fun q => q.1 ≠ p)

/-- An inotify event as the dispatch code sees it: watch descriptor,
the mask bits the program inspects, and the optional entry name. -/
structure EventMask where
  ignored : Bool
  delete_self : Bool
  move_self : Bool
  isdir : Bool
deriving DecidableEq

/-- One event from a blocking read. -/
structure Evt where
  wd : Int
  mask : EventMask
  name : Option String
deriving DecidableEq

/-- Observable actions of the model, used to state ordering claims:
pass-one and pass-two processing markers per event, watch-table
removals, OS watch deregistration, watch registration, the settle
delay, and a move attempt (the entry into emit). -/
inductive Action where
| rmEvt (e : Evt)
| crEvt (e : Evt)
| removeWd (wd : Int)
| osUnwatch (wd : Int)
| addWatch (path : String) (wd : Int)
| settle
| moveAttempt (src : String) (dst : String)
deriving DecidableEq

/-- Errors of the mover, tagged with the offending path. -/
inductive EmitErr where
| collision (path : String)
| renameFail (path : String)
deriving DecidableEq

/-- Result of one emit call: the Result value, the filesystem after
the call, the new value of the directory's dst_created cell, and the
trace actions. -/
structure EmitOut where
  res : Except EmitErr Unit
  fs : Fs
  dst_created : Bool
  acts : List Action

/-- Monitor::emit of main.rs.  Computes the destination directory via
Directory::dst, which lazily creates it on disk the first time (note:
this happens before the dry-run test), then in a dry run only reports;
otherwise claims the destination name by exclusive creation (fails if
the destination already exists), then renames the source over the
claimed name.  A failed rename leaves the claimed empty placeholder
behind. -/
def Monitor.emit (dest : String) (dry : Bool) (dir : Directory) (name : String)
    (fs : Fs) : EmitOut :=
  let dstDir := dest ++ "/" ++ dir.path
  let fs1 := if dir.dst_created then fs else fs.mkdirAll dstDir
  let src := dir.join name
  let dst := dstDir ++ "/" ++ name
  let acts := [Action.moveAttempt src dst]
  if dry then
    { res := Except.ok (), fs := fs1, dst_created := true, acts := acts }
  else if fs1.hasFile dst then
    { res := Except.error (EmitErr.collision dst), fs := fs1, dst_created := true,
      acts := acts }
  else
    let fs2 := { fs1 with files := (dst, 0) :: fs1.files }
    match List.lookup src fs2.files with
    | none =>
      { res := Except.error (EmitErr.renameFail src), fs := fs2, dst_created := true,
        acts := acts }
    | some c =>
      { res := Except.ok (),
        fs := { fs2 with files := (dst, c) :: removeFile (removeFile fs2.files dst) src },
        dst_created := true, acts := acts }

structure MonState where
  dirs : List (Int × Directory)
  inos : List Nat
deriving DecidableEq

/-- Stat result of a path, as Monitor::add consumes it: the path may
be missing (or otherwise unreadable), a non-directory, or a directory
with its inode number. -/
inductive Stat where
| missing
| file
| dir (ino : Nat)
deriving DecidableEq

/-- The error cases Monitor::add returns to its caller. -/
inductive AddErr where
| statErr
| notADir
| dupIno
deriving DecidableEq

/-- Result of Monitor::add: success with the new table and the watch
descriptor, a returned error, or a process abort (the source unwraps
the watch-registration result and panics on a duplicate watch
descriptor). -/
inductive AddRes where
| ok (m : MonState) (wd : Int)
| err (e : AddErr)
| fatal
deriving DecidableEq

/-- Monitor::add of main.rs over the watch table.  The stat result of
the path and the outcome of the OS watch registration are explicit
inputs of the model.  A failed stat propagates; a non-directory fails
NotADirectory; an already-tracked inode fails DuplicateInode; a
failing watch registration is unwrapped, aborting the process, as is
a duplicate watch descriptor returned by the OS; otherwise the new
Directory is inserted under the descriptor and the inode recorded.
The function matches on the stat and registration inputs together;
when an error is returned before the registration would happen, the
registration input is irrelevant, matching the source order. -/
def Monitor.add : MonState → String → Stat → Except Unit Int → AddRes
| _, _, .missing, _ => .err .statErr
| _, _, .file, _ => .err .notADir
| m, _, .dir ino, .error _ =>
  if ino ∈ m.inos then .err .dupIno
  else .fatal
| m, path, .dir ino, .ok wd =>
  if ino ∈ m.inos then .err .dupIno
  else if (List.lookup wd m.dirs).isSome then .fatal
  else .ok (MonState.mk ((wd, Directory.new path ino) :: m.dirs) (ino :: m.inos)) wd

/-- Monitor::remove of main.rs: drop the mapping entry for the watch
descriptor, if present, together with its inode; an absent handle or
inode is only logged.  Also returns the logical-removal trace. -/
def Monitor.remove (m : MonState) (wd : Int) : MonState × List Action :=
  match List.lookup wd m.dirs with
  | some dir =>
    (MonState.mk (m.dirs.eraseP (fun p => p.1 == wd)) (m.inos.erase dir.ino),
      [Action.removeWd wd])
  | none => (m, [])

/-- Watch-table states reachable from the empty table by successful
add calls and by remove calls. -/
inductive Reachable : MonState → Prop where
| init : Reachable (MonState.mk [] [])
| add (m : MonState) (path : String) (st : Stat) (reg : Except Unit Int)
    (m' : MonState) (wd : Int) :
    Reachable m → Monitor.add m path st reg = AddRes.ok m' wd → Reachable m'
| remove (m : MonState) (wd : Int) :
    Reachable m → Reachable (Monitor.remove m wd).1

/-- Number of live entries of the mapping whose Directory has the
given inode. -/
def inoCount (dirs : List (Int × Directory)) (i : Nat) : Nat :=
  (dirs.filter (fun p => p.2.ino == i)).length

/-- The WatchTable invariant: an inode number is in the dedup set iff
exactly one live entry of the mapping has that inode. -/
def WatchInv (m : MonState) : Prop :=
  ∀ i, i ∈ m.inos ↔ inoCount m.dirs i = 1

/-- Strengthened invariant used for the induction: distinct watch
descriptors, a duplicate-free inode set, and per-inode entry counts
given exactly by membership in the inode set. -/
def AuxInv (m : MonState) : Prop :=
  (m.dirs.map (fun p => p.1)).Nodup ∧ m.inos.Nodup ∧
    ∀ i, inoCount m.dirs i = if i ∈ m.inos then 1 else 0

inductive FTree where
| file (name : String) : FTree
| dir (name : String) (ino : Nat) (entries : List FTree) : FTree

/-- Name of one tree entry. -/
def FTree.name : FTree → String
| .file n => n
| .dir n _ _ => n

/-- Path resolution in the source tree: the empty segment list is the
tree root (the process working directory); each further segment
selects the first equally-named child of a directory node. -/
def FTree.resolve : FTree → List String → Option FTree
| t, [] => some t
| .file _, _ :: _ => none
| .dir _ _ es, s :: rest =>
  match es.find? (fun t => FTree.name t == s) with
  | some t => FTree.resolve t rest
  | none => none

/-- Separator-split of a path into segments. -/
def splitPath (acc : List Char) : List Char → List String
| [] => [String.mk acc.reverse]
| c :: rest =>
  if c = '/' then String.mk acc.reverse :: splitPath [] rest
  else splitPath (c :: acc) rest

/-- Segments of a relative path: the current-directory path denotes
the root. -/
def segs (p : String) : List String :=
  if p = "." then [] else splitPath [] p.data

/-- The whole model state: the watch table, the flat filesystem the
mover acts on, the source tree the traversal reads, the session
configuration (destination root, dry-run flag), the read-failure
flag, the environment controlling which OS watch removals and
registrations fail, the watch-descriptor allocator, the recursion
budget of the traversal, the action trace, and the dead flag that
models a process abort; dead is absorbing, a dead world takes no
further steps and shows no further effects. -/
structure World where
  mon : MonState
  fs : Fs
  tree : FTree
  dest : String
  dry : Bool
  fail : Bool
  rmFails : List Int
  regFails : List String
  nextWd : Int
  fuel : Nat
  trace : List Action
  dead : Bool

/-- Monitor::add lifted to the world: the stat result is read from the
source tree, and the OS watch registration yields the next free
descriptor, or fails for paths in regFails, in which case the unwrap
aborts the process (dead world). -/
def addW (w : World) (path : String) : World × Except AddErr Int :=
  let st := match w.tree.resolve (segs path) with
    | none => Stat.missing
    | some (FTree.file _) => Stat.file
    | some (FTree.dir _ ino _) => Stat.dir ino
  let reg : Except Unit Int :=
    if path ∈ w.regFails then Except.error () else Except.ok w.nextWd
  match Monitor.add w.mon path st reg with
  | AddRes.ok m' wd =>
    ({ w with
        mon := m'
        nextWd := w.nextWd + 1
        trace := w.trace ++ [Action.addWatch path wd] }, Except.ok wd)
  | AddRes.err e => (w, Except.error e)
  | AddRes.fatal => ({ w with dead := true }, Except.error AddErr.statErr)

/-- Replace the Directory stored under a descriptor: the in-place
Cell update of dst_created, seen through the table. -/
def updateDirAt (m : MonState) (wd : Int) (dir : Directory) : MonState :=
  MonState.mk (m.dirs.map (fun p => if p.1 == wd then (p.1, dir) else p)) m.inos

/-- The read_dir loop body of Monitor::watch over one listing: hidden
names are skipped (the first-byte check aborts on an empty name),
subdirectory names are collected in order unless ignorable, and in
in-place mode matching plain files are moved immediately.  Returns the
world, the Directory as left by its Cell updates, and the collected
subdirectory paths. -/
def scanEntries : World → Int → Directory → Bool → List FTree →
    World × Directory × List String
| w, _, dir, _, [] => (w, dir, [])
| w, wd, dir, inplace, t :: rest =>
  if w.dead then (w, dir, [])
  else
    match hiddenCheck (FTree.name t) with
    | none => ({ w with dead := true }, dir, [])
    | some true => scanEntries w wd dir inplace rest
    | some false =>
      match t with
      | FTree.dir _ _ _ =>
        if is_ignored_dir (FTree.name t) inplace then scanEntries w wd dir inplace rest
        else
          let out := scanEntries w wd dir inplace rest
          (out.1, out.2.1, Directory.join dir (FTree.name t) :: out.2.2)
      | FTree.file _ =>
        if inplace && Directory.filter_name dir (FTree.name t) then
          let out := Monitor.emit w.dest w.dry dir (FTree.name t) w.fs
          let dir' := { dir with dst_created := out.dst_created }
          let w' := { w with
              fs := out.fs
              trace := w.trace ++ out.acts
              mon := updateDirAt w.mon wd dir' }
          scanEntries w' wd dir' inplace rest
        else scanEntries w wd dir inplace rest

/-- Monitor::watch of main.rs: recursively watch a directory tree.
The source recurses directly; the model carries an explicit worklist,
processed depth-first in the same order, and a fuel bound making the
recursion structural; exhausted fuel kills the world (never reached
under an adequate budget).  A failing add is logged and the traversal
continues with the remaining work; a failing read_dir or a vanished
table entry would be unwrapped by the source, killing the world. -/
def watchW : Nat → World → List String → Bool → World
| _, w, [], _ => w
| 0, w, _ :: _, _ => { w with dead := true }
| Nat.succ fuel, w, root :: rest, inplace =>
  if w.dead then w
  else
    match addW w root with
    | (w', Except.error _) => watchW fuel w' rest inplace
    | (w', Except.ok wd) =>
      match List.lookup wd w'.mon.dirs with
      | none => { w' with dead := true }
      | some dir =>
        match FTree.resolve w'.tree (segs dir.path) with
        | some (FTree.dir _ _ entries) =>
          let out := scanEntries w' wd dir inplace entries
          watchW fuel out.1 (out.2.2 ++ rest) inplace
        | _ => { w' with dead := true }

/-- Result of Monitor::handle_rm: the event was consumed by pass one,
kept for pass two, or its handling failed (it is then dropped and
logged by the caller). -/
inductive RmRes where
| consumed
| keep
| failed
deriving DecidableEq

/-- The removal-class mask bits handled by pass one. -/
def removalClass (e : Evt) : Bool :=
  e.mask.ignored || e.mask.delete_self || e.mask.move_self

/-- Monitor::handle_rm of main.rs: the first-pass handler of one
event.  A watch-ignored acknowledgment is consumed as a no-op (the
cleanup happened on the earlier self-delete or self-move); a
self-delete removes the table entry; a self-move removes the table
entry and then deregisters the OS watch, whose failure propagates;
any other event is kept for pass two. -/
def handle_rm (w : World) (e : Evt) : RmRes × World :=
  if e.mask.ignored then
    (RmRes.consumed, { w with trace := w.trace ++ [Action.rmEvt e] })
  else if e.mask.delete_self then
    let r := Monitor.remove w.mon e.wd
    (RmRes.consumed, { w with mon := r.1, trace := w.trace ++ [Action.rmEvt e] ++ r.2 })
  else if e.mask.move_self then
    let r := Monitor.remove w.mon e.wd
    let w' := { w with mon := r.1, trace := w.trace ++ [Action.rmEvt e] ++ r.2 }
    if e.wd ∈ w.rmFails then (RmRes.failed, w')
    else (RmRes.consumed, { w' with trace := w'.trace ++ [Action.osUnwatch e.wd] })
  else (RmRes.keep, w)

/-- Monitor::handle of main.rs: the second-pass handler of one
surviving event.  Nameless events are skipped; hidden names are
skipped (the first-byte check aborts on an empty name); an unknown
descriptor is the recoverable NotFound error; a directory-flagged
event extends the watch tree with the in-place flag hard-coded to
false, as in the source; a matching plain file is moved after the
settle delay, paid at most once per batch. -/
def handleW (w : World) (e : Evt) (slept : Bool) : World × Bool × Except Unit Unit :=
  if w.dead then (w, slept, Except.ok ())
  else
    match e.name with
    | none => (w, slept, Except.ok ())
    | some name =>
      match hiddenCheck name with
      | none => ({ w with dead := true }, slept, Except.ok ())
      | some true => (w, slept, Except.ok ())
      | some false =>
        match List.lookup e.wd w.mon.dirs with
        | none => (w, slept, Except.error ())
        | some dir =>
          if e.mask.isdir then
            (watchW w.fuel w [Directory.join dir name] false, slept, Except.ok ())
          else if Directory.filter_name dir name then
            let w1 := if slept then w else { w with trace := w.trace ++ [Action.settle] }
            let out := Monitor.emit w1.dest w1.dry dir name w1.fs
            let dir' := { dir with dst_created := out.dst_created }
            let w2 := { w1 with
                fs := out.fs
                trace := w1.trace ++ out.acts
                mon := updateDirAt w1.mon e.wd dir' }
            match out.res with
            | Except.error _ => (w2, true, Except.error ())
            | Except.ok _ => (w2, true, Except.ok ())
          else (w, slept, Except.ok ())

/-- The removal pass of Monitor::run (the retain call): handle_rm is
applied to every event in arrival order, and exactly the events it
keeps survive, in their original order. -/
def passRm : World → List Evt → World × List Evt
| w, [] => (w, [])
| w, e :: rest =>
  let r := handle_rm w e
  match r.1 with
  | RmRes.keep =>
    let out := passRm r.2 rest
    (out.1, e :: out.2)
  | RmRes.consumed => passRm r.2 rest
  | RmRes.failed => passRm r.2 rest

/-- The second pass of Monitor::run: handle every surviving event in
arrival order, threading the once-per-batch settle flag; a handling
error is logged and the loop continues; a dead world stops, the
process being gone. -/
def pass2 : World → Bool → List Evt → World
| w, _, [] => w
| w, slept, e :: rest =>
  if w.dead then w
  else
    let w1 := { w with trace := w.trace ++ [Action.crEvt e] }
    let out := handleW w1 e slept
    pass2 out.1 out.2.1 rest

/-- One successfully read batch of Monitor::run: all removals are
applied first, then the surviving events are handled. -/
def processBatch (w : World) (evts : List Evt) : World :=
  let out := passRm w evts
  pass2 out.1 false out.2

/-- Outcome of one blocking read of the notification stream. -/
inductive ReadResult where
| ok (evts : List Evt)
| err
deriving DecidableEq

/-- Monitor::run of main.rs: one iteration of the event loop.  A
successful read clears the failure flag and processes the batch; a
failed read is tolerated once, setting the flag, and aborts the
process (none) when the flag is already set.  A dead world takes no
step. -/
def runStep (w : World) (r : ReadResult) : Option World :=
  if w.dead then some w
  else
    match r with
    | ReadResult.ok evts => some (processBatch { w with fail := false } evts)
    | ReadResult.err => if w.fail then none else some { w with fail := true }

/-- The main loop over a sequence of read outcomes; none when the
process aborted on a doubled read failure. -/
def runLoop : World → List ReadResult → Option World
| w, [] => some w
| w, r :: rs =>
  match runStep w r with
  | none => none
  | some w' => runLoop w' rs

/-- Two adjacent read failures somewhere in a list of read
outcomes. -/
def hasConsecErr : List ReadResult → Bool
| ReadResult.err :: ReadResult.err :: _ => true
| _ :: rs => hasConsecErr rs
| [] => false

/-- The pass-one and pass-two processing markers of the trace. -/
def isMarker : Action → Bool
| Action.rmEvt _ => true
| Action.crEvt _ => true
| _ => false

/-- The move-attempt actions of the trace. -/
def isMove : Action → Bool
| Action.moveAttempt _ _ => true
| _ => false

/-- Whether a read-outcome list starts with a failure. -/
def headErr : List ReadResult → Bool
| ReadResult.err :: _ => true
| _ => false

/-- A concrete source tree for the concrete scenarios: the working
directory contains one subdirectory named sub holding an
already-present matching media file and an ignorable directory. -/
def treeC6 : FTree :=
  FTree.dir ("") 1
    [FTree.dir ("sub") 2 [FTree.file ("a.mp4"), FTree.dir ("DSC_2024") 3 []]]

/-- A concrete world watching the working directory of treeC6. -/
def wC6 : World :=
  { mon := MonState.mk [(1, Directory.new (".") 1)] [1]
    fs := Fs.mk [] []
    tree := treeC6
    dest := "dst"
    dry := false
    fail := false
    rmFails := []
    regFails := []
    nextWd := 2
    fuel := 9
    trace := []
    dead := false }

/-- A creation event flagged as a directory, for the subdirectory sub
of the watched root. -/
def eC6 : Evt := Evt.mk 1 (EventMask.mk false false false true) (some ("sub"))

/-- A concrete world with one watched directory under descriptor 1
over an empty tree. -/
def wC5 : World :=
  { mon := MonState.mk [(1, Directory.new (".") 1)] [1]
    fs := Fs.mk [] []
    tree := FTree.dir ("") 1 []
    dest := "dst"
    dry := false
    fail := false
    rmFails := []
    regFails := []
    nextWd := 2
    fuel := 3
    trace := []
    dead := false }

/-- A creation-class event carrying a plain file name. -/
def eC5a : Evt := Evt.mk 1 (EventMask.mk false false false false) (some ("f.txt"))

/-- A removal-class event (the watched directory deleted itself). -/
def eC5b : Evt := Evt.mk 1 (EventMask.mk false true false false) none

/-- A concrete world with an empty watch table over an empty tree. -/
def wC7 : World :=
  { mon := MonState.mk [] []
    fs := Fs.mk [] []
    tree := FTree.dir ("") 1 []
    dest := "dst"
    dry := false
    fail := false
    rmFails := []
    regFails := []
    nextWd := 1
    fuel := 1
    trace := []
    dead := false }

/-- A concrete world with one watched directory under descriptor 3,
for the removal scenario. -/
def wC9 : World :=
  { mon := MonState.mk [(3, Directory.new ("b") 7)] [7]
    fs := Fs.mk [] []
    tree := FTree.dir ("") 1 []
    dest := "dst"
    dry := false
    fail := false
    rmFails := []
    regFails := []
    nextWd := 4
    fuel := 1
    trace := []
    dead := false }

/-- A concrete live world for the empty-name scenario. -/
def wC10 : World :=
  { mon := MonState.mk [] []
    fs := Fs.mk [] []
    tree := FTree.dir ("") 1 []
    dest := "dst"
    dry := false
    fail := false
    rmFails := []
    regFails := []
    nextWd := 1
    fuel := 1
    trace := []
    dead := false }

/-- An event carrying an empty entry name, which no inotify stream
produces but the model can express. -/
def eC10 : Evt := Evt.mk 1 (EventMask.mk false false false false) (some (""))

theorem Fs.mkdirAll_files (fs : Fs) (p : String) : (fs.mkdirAll p).files = fs.files := by
  unfold Fs.mkdirAll
  split <;> rfl

theorem Fs.hasFile_mkdirAll (fs : Fs) (p q : String) :
    (fs.mkdirAll p).hasFile q = fs.hasFile q := by
  unfold Fs.hasFile
  rw [Fs.mkdirAll_files]

theorem Fs.mkdirAll_dirs (fs : Fs) (p : String) :
    (fs.mkdirAll p).dirs = if p ∈ fs.dirs then fs.dirs else p :: fs.dirs := by
  unfold Fs.mkdirAll
  split <;> rfl

/-- Claim C1: a non-dry emit whose computed destination path already
holds a file fails with the exclusive-create collision error, and the
file set is unchanged: the existing destination file is not
overwritten and the source file stays at its source path, no rename
having been performed. -/
theorem claimC1 (dest : String) (dir : Directory) (name : String) (fs : Fs)
    (h : fs.hasFile (dest ++ "/" ++ dir.path ++ "/" ++ name) = true) :
    (Monitor.emit dest false dir name fs).res
        = Except.error (EmitErr.collision (dest ++ "/" ++ dir.path ++ "/" ++ name)) ∧
      (Monitor.emit dest false dir name fs).fs.files = fs.files := by
  unfold Monitor.emit
  by_cases hc : dir.dst_created <;>
    simp [hc, Fs.hasFile_mkdirAll, Fs.mkdirAll_files, h]

theorem claimC1_wit :
    ((Fs.mk [("d/a/x.mp4", 5)] []).hasFile ("d" ++ "/" ++ "a" ++ "/" ++ "x.mp4") = true) ∧
      ((Monitor.emit "d" false (Directory.new "a" 1) "x.mp4" (Fs.mk [("d/a/x.mp4", 5)] [])).res
          = Except.error (EmitErr.collision ("d" ++ "/" ++ "a" ++ "/" ++ "x.mp4")) ∧
        (Monitor.emit "d" false (Directory.new "a" 1) "x.mp4"
            (Fs.mk [("d/a/x.mp4", 5)] [])).fs.files = [("d/a/x.mp4", 5)]) :=
  ⟨by decide, claimC1 "d" (Directory.new "a" 1) "x.mp4" (Fs.mk [("d/a/x.mp4", 5)] []) (by decide)⟩

/-- Claim C3 counterexample: a dry-run emit does mutate the filesystem
model when the destination directory has not been materialized yet,
because Directory::dst runs fs::create_dir_all before the dry-run test
in Monitor::emit.  At this concrete input the directory set changes. -/
theorem claimC3_cex :
    (Monitor.emit "d" true (Directory.new "a" 7) "x.mp4"
        (Fs.mk [("a/x.mp4", 1)] ["a"])).fs
      ≠ Fs.mk [("a/x.mp4", 1)] ["a"] := by decide

/-- Claim C3 as amended: in a dry run, emit returns success, touches
no file (the claim file is not created, no rename happens), and the
only possible filesystem mutation is the lazy creation of the
destination directory, which happens exactly when the directory's
dst_created flag was still false and the destination directory did not
exist yet. -/
theorem claimC3_amended (dest : String) (dir : Directory) (name : String) (fs : Fs) :
    (Monitor.emit dest true dir name fs).res = Except.ok () ∧
      (Monitor.emit dest true dir name fs).fs.files = fs.files ∧
      (Monitor.emit dest true dir name fs).fs.dirs
        = (if dir.dst_created then fs.dirs
           else if (dest ++ "/" ++ dir.path) ∈ fs.dirs then fs.dirs
           else (dest ++ "/" ++ dir.path) :: fs.dirs) ∧
      (Monitor.emit dest true dir name fs).dst_created = true := by
  unfold Monitor.emit
  refine ⟨rfl, ?_, ?_, rfl⟩
  · by_cases hc : dir.dst_created <;> simp [hc, Fs.mkdirAll_files]
  · by_cases hc : dir.dst_created <;> simp [hc, Fs.mkdirAll_dirs]

/-- Claim C4: filter_name is true exactly when the name has an
extension whose ASCII-lowercase form is mp4 or dng, or lies in the
fixed image-extension set while the owning directory is not
image-capable.  In particular a name without an extension never
matches, and an image extension never matches in an image-capable
directory. -/
theorem claimC4 (d : Directory) (name : String) :
    d.filter_name name = true ↔
      ∃ e, pathExtension name = some e ∧
        (asciiLower e = "mp4" ∨ asciiLower e = "dng" ∨
          (asciiLower e ∈ IMG_EXT_STRS ∧ d.allow_img = false)) := by
  unfold Directory.filter_name
  cases h : pathExtension name with
  | none => simp
  | some e =>
    simp only [h, Option.some.injEq]
    by_cases h1 : asciiLower e = "mp4"
    · simp [h1]
    · by_cases h2 : asciiLower e = "dng"
      · simp [h2]
      · by_cases h3 : d.allow_img <;> simp [h1, h2, h3]

/-- The watch table of the Monitor: the ordered map from watch
descriptors to Directory entries (a BTreeMap in the source, modelled
as an association list with distinct keys) and the set of tracked
inode numbers (a BTreeSet, modelled as a duplicate-free list). -/
theorem inoCount_nil (i : Nat) : inoCount [] i = 0 := rfl

theorem inoCount_cons (wd : Int) (d : Directory) (l : List (Int × Directory)) (i : Nat) :
    inoCount ((wd, d) :: l) i = (if d.ino = i then 1 else 0) + inoCount l i := by
  unfold inoCount
  rw [List.filter_cons]
  by_cases h : d.ino = i <;> simp [h, Nat.add_comm]

theorem lookup_none_not_key {β : Type} (l : List (Int × β)) (wd : Int)
    (h : List.lookup wd l = none) : wd ∉ l.map (fun p => p.1) := by
  induction l with
  | nil => simp
  | cons p rest ih =>
    obtain ⟨k, v⟩ := p
    rw [List.lookup_cons] at h
    by_cases hk : wd = k
    · simp [hk] at h
    · simp only [List.map_cons, List.mem_cons]
      have : (wd == k) = false := by simp [hk]
      rw [this] at h
      exact fun hc => hc.elim (fun he => hk he) (fun hm => ih h hm)

theorem lookup_inoCount_pos (l : List (Int × Directory)) (wd : Int) (dir : Directory)
    (h : List.lookup wd l = some dir) : 0 < inoCount l dir.ino := by
  induction l with
  | nil => simp [List.lookup] at h
  | cons p rest ih =>
    obtain ⟨k, v⟩ := p
    rw [List.lookup_cons] at h
    rw [inoCount_cons]
    by_cases hk : wd = k
    · have : (wd == k) = true := by simp [hk]
      rw [this] at h
      simp only [Option.some.injEq] at h
      subst h
      simp
    · have : (wd == k) = false := by simp [hk]
      rw [this] at h
      have := ih h
      omega

theorem inoCount_eraseP (l : List (Int × Directory)) (wd : Int) (dir : Directory)
    (h : List.lookup wd l = some dir) (i : Nat) :
    inoCount l i
      = inoCount (l.eraseP (fun p => p.1 == wd)) i + (if dir.ino = i then 1 else 0) := by
  induction l with
  | nil => simp [List.lookup] at h
  | cons p rest ih =>
    obtain ⟨k, v⟩ := p
    rw [List.lookup_cons] at h
    by_cases hk : wd = k
    · have hb : (wd == k) = true := by simp [hk]
      rw [hb] at h
      simp only [Option.some.injEq] at h
      subst h
      have hpk : ((k, v).1 == wd) = true := by simp [hk]
      rw [List.eraseP_cons, hpk]
      simp only [cond_true]
      rw [inoCount_cons]
      omega
    · have hb : (wd == k) = false := by simp [hk]
      rw [hb] at h
      have hpk : ((k, v).1 == wd) = false := by simp; exact fun he => hk he.symm
      rw [List.eraseP_cons, hpk]
      simp only [cond_false]
      rw [inoCount_cons, inoCount_cons, ih h]
      omega

theorem auxInv_add (m : MonState) (path : String) (st : Stat)
    (reg : Except Unit Int) (m' : MonState) (wd : Int) (hinv : AuxInv m)
    (h : Monitor.add m path st reg = AddRes.ok m' wd) : AuxInv m' := by
  obtain ⟨hk, hi, hc⟩ := hinv
  cases st with
  | missing => simp [Monitor.add] at h
  | file => simp [Monitor.add] at h
  | dir ino =>
    cases reg with
    | error e =>
      by_cases hmem : ino ∈ m.inos <;> simp [Monitor.add, hmem] at h
    | ok wd0 =>
      simp only [Monitor.add] at h
      by_cases hmem : ino ∈ m.inos
      · simp [hmem] at h
      · rw [if_neg hmem] at h
        by_cases hwd : (List.lookup wd0 m.dirs).isSome = true
        · simp [hwd] at h
        · rw [if_neg hwd] at h
          simp only [AddRes.ok.injEq] at h
          obtain ⟨hm', hwd'⟩ := h
          subst hm'
          refine ⟨?_, ?_, ?_⟩
          · simp only [List.map_cons]
            refine List.nodup_cons.mpr ⟨?_, hk⟩
            have hnone : List.lookup wd0 m.dirs = none := by
              cases hl : List.lookup wd0 m.dirs with
              | none => rfl
              | some d => rw [hl] at hwd; simp at hwd
            exact lookup_none_not_key m.dirs wd0 hnone
          · exact List.nodup_cons.mpr ⟨hmem, hi⟩
          · intro i
            rw [inoCount_cons]
            have hini : (Directory.new path ino).ino = i ↔ ino = i := by
              simp [Directory.new]
            by_cases hii : ino = i
            · subst hii
              have h0 : inoCount m.dirs ino = 0 := by rw [hc ino, if_neg hmem]
              simp [Directory.new, h0]
            · have : ((Directory.new path ino).ino = i) = False := by
                simp [Directory.new]; exact hii
              rw [if_neg (by simp [Directory.new]; exact hii)]
              rw [hc i]
              have : (i ∈ ino :: m.inos) ↔ i ∈ m.inos := by
                simp only [List.mem_cons]
                exact ⟨fun hor => hor.elim (fun he => absurd he.symm hii) id, Or.inr⟩
              simp only [MonState.mk.injEq]
              rw [if_congr this rfl rfl]
              omega

theorem auxInv_remove (m : MonState) (wd : Int) (hinv : AuxInv m) :
    AuxInv (Monitor.remove m wd).1 := by
  obtain ⟨hk, hi, hc⟩ := hinv
  cases hl : List.lookup wd m.dirs with
  | none =>
    have hrm : (Monitor.remove m wd).1 = m := by
      unfold Monitor.remove
      rw [hl]
    rw [hrm]
    exact ⟨hk, hi, hc⟩
  | some dir =>
    have hrm : (Monitor.remove m wd).1
        = MonState.mk (m.dirs.eraseP (fun p => p.1 == wd)) (m.inos.erase dir.ino) := by
      unfold Monitor.remove
      rw [hl]
    rw [hrm]
    refine ⟨?_, ?_, ?_⟩
    · exact ((List.eraseP_sublist m.dirs).map (fun p => p.1)).nodup hk
    · exact (List.erase_sublist dir.ino m.inos).nodup hi
    · intro i
      dsimp only
      have hcnt := inoCount_eraseP m.dirs wd dir hl i
      by_cases hii : i = dir.ino
      · subst hii
        have hpos := lookup_inoCount_pos m.dirs wd dir hl
        have h1 : inoCount m.dirs dir.ino = 1 := by
          rw [hc dir.ino] at hpos ⊢
          by_cases hm : dir.ino ∈ m.inos
          · rw [if_pos hm]
          · rw [if_neg hm] at hpos; omega
        have : dir.ino ∉ m.inos.erase dir.ino := hi.not_mem_erase
        rw [if_neg this]
        rw [h1, if_pos rfl] at hcnt
        omega
      · have hmm : i ∈ m.inos.erase dir.ino ↔ i ∈ m.inos := List.mem_erase_of_ne hii
        rw [if_neg (fun he => hii he.symm)] at hcnt
        rw [if_congr hmm rfl rfl]
        rw [← hc i]
        omega

theorem reachable_auxInv (m : MonState) (h : Reachable m) : AuxInv m := by
  induction h with
  | init =>
    refine ⟨by simp, by simp, ?_⟩
    intro i
    simp [inoCount_nil]
  | add m path st reg m' wd hr heq ih => exact auxInv_add m path st reg m' wd ih heq
  | remove m wd hr ih => exact auxInv_remove m wd ih

/-- Claim C2: in every reachable watch-table state, an inode number is
in the dedup set iff exactly one live entry of the mapping has that
inode; add rejects a path whose inode is already tracked with the
DuplicateInode error; and remove on a present handle deletes both the
mapping entry and its inode together (one logical removal). -/
theorem claimC2 :
    (∀ m, Reachable m → WatchInv m) ∧
      (∀ (m : MonState) (path : String) (ino : Nat) (reg : Except Unit Int),
        ino ∈ m.inos → Monitor.add m path (Stat.dir ino) reg = AddRes.err AddErr.dupIno) ∧
      (∀ (m : MonState) (wd : Int) (dir : Directory), Reachable m →
        List.lookup wd m.dirs = some dir →
        (Monitor.remove m wd).1.dirs = m.dirs.eraseP (fun p => p.1 == wd) ∧
          dir.ino ∉ (Monitor.remove m wd).1.inos ∧
          (Monitor.remove m wd).2 = [Action.removeWd wd]) := by
  refine ⟨?_, ?_, ?_⟩
  · intro m hr i
    obtain ⟨hk, hi, hc⟩ := reachable_auxInv m hr
    rw [hc i]
    by_cases hm : i ∈ m.inos
    · simp [hm]
    · simp [hm]
  · intro m path ino reg hmem
    cases reg with
    | error e => simp [Monitor.add, hmem]
    | ok wd0 => simp [Monitor.add, hmem]
  · intro m wd dir hr hl
    obtain ⟨hk, hi, hc⟩ := reachable_auxInv m hr
    have hrm : Monitor.remove m wd
        = (MonState.mk (m.dirs.eraseP (fun p => p.1 == wd)) (m.inos.erase dir.ino),
          [Action.removeWd wd]) := by
      unfold Monitor.remove
      rw [hl]
    rw [hrm]
    exact ⟨rfl, hi.not_mem_erase, rfl⟩

theorem claimC2_wit :
    WatchInv (MonState.mk [(1, Directory.new ("a") 5)] [5]) ∧
      Monitor.add (MonState.mk [(1, Directory.new ("a") 5)] [5]) ("b") (Stat.dir 5)
          (Except.ok 2) = AddRes.err AddErr.dupIno ∧
      ((Monitor.remove (MonState.mk [(1, Directory.new ("a") 5)] [5]) 1).1.dirs
          = (MonState.mk [(1, Directory.new ("a") 5)] [5]).dirs.eraseP (fun p => p.1 == 1) ∧
        (Directory.new ("a") 5).ino
            ∉ (Monitor.remove (MonState.mk [(1, Directory.new ("a") 5)] [5]) 1).1.inos ∧
        (Monitor.remove (MonState.mk [(1, Directory.new ("a") 5)] [5]) 1).2
            = [Action.removeWd 1]) := by
  have hr : Reachable (MonState.mk [(1, Directory.new ("a") 5)] [5]) :=
    Reachable.add (MonState.mk [] []) ("a") (Stat.dir 5) (Except.ok 1)
      (MonState.mk [(1, Directory.new ("a") 5)] [5]) 1 Reachable.init (by decide)
  exact ⟨claimC2.1 _ hr, claimC2.2.1 _ ("b") 5 (Except.ok 2) (by decide),
    claimC2.2.2 _ 1 (Directory.new ("a") 5) hr (by decide)⟩

/-- Claim C8 counterexample: on a directory path with an untracked
inode whose OS watch registration fails, Monitor::add does not return
the underlying error as a Result value: the source unwraps the
registration result, which aborts the process (AddRes.fatal), so the
result is not an err of any kind. -/
theorem claimC8_cex :
    Monitor.add (MonState.mk [] []) ("a") (Stat.dir 5) (Except.error ()) = AddRes.fatal ∧
      Monitor.add (MonState.mk [] []) ("a") (Stat.dir 5) (Except.error ())
          ≠ AddRes.err AddErr.statErr ∧
      Monitor.add (MonState.mk [] []) ("a") (Stat.dir 5) (Except.error ())
          ≠ AddRes.err AddErr.notADir ∧
      Monitor.add (MonState.mk [] []) ("a") (Stat.dir 5) (Except.error ())
          ≠ AddRes.err AddErr.dupIno := by
  refine ⟨rfl, by decide, by decide, by decide⟩

/-- Claim C8 as amended: when the OS watch registration fails for a
directory whose inode is untracked, Monitor::add aborts the process
(the registration Result is unwrapped) instead of returning the error
to its caller. -/
theorem claimC8_amended (m : MonState) (path : String) (ino : Nat)
    (h : ino ∉ m.inos) :
    Monitor.add m path (Stat.dir ino) (Except.error ()) = AddRes.fatal := by
  simp [Monitor.add, h]

theorem claimC8_amended_wit :
    Monitor.add (MonState.mk [] []) ("b") (Stat.dir 9) (Except.error ()) = AddRes.fatal :=
  claimC8_amended (MonState.mk [] []) ("b") 9 (by decide)

/-- The source tree read by the recursive traversal: a named file, or
a named directory with its inode and the listing the OS returns. -/
theorem emit_acts (dest : String) (dry : Bool) (dir : Directory) (name : String)
    (fs : Fs) :
    (Monitor.emit dest dry dir name fs).acts
      = [Action.moveAttempt (dir.join name) (dest ++ "/" ++ dir.path ++ "/" ++ name)] := by
  simp only [Monitor.emit]
  repeat' first | rfl | split

theorem emit_acts_marker (dest : String) (dry : Bool) (dir : Directory) (name : String)
    (fs : Fs) :
    ((Monitor.emit dest dry dir name fs).acts).filter isMarker = [] := by
  rw [emit_acts]
  rfl

theorem remove_acts_cases (m : MonState) (wd : Int) :
    (Monitor.remove m wd).2 = [] ∨ (Monitor.remove m wd).2 = [Action.removeWd wd] := by
  unfold Monitor.remove
  split
  · exact Or.inr rfl
  · exact Or.inl rfl

theorem remove_acts_marker (m : MonState) (wd : Int) :
    ((Monitor.remove m wd).2).filter isMarker = [] := by
  rcases remove_acts_cases m wd with h | h <;> rw [h] <;> rfl

theorem handle_rm_keep_iff (w : World) (e : Evt) :
    (handle_rm w e).1 = RmRes.keep ↔ removalClass e = false := by
  unfold handle_rm removalClass
  by_cases h1 : e.mask.ignored <;> by_cases h2 : e.mask.delete_self <;>
    by_cases h3 : e.mask.move_self <;> by_cases h4 : e.wd ∈ w.rmFails <;>
      simp [h1, h2, h3, h4]

theorem handle_rm_dead (w : World) (e : Evt) : ((handle_rm w e).2).dead = w.dead := by
  unfold handle_rm
  by_cases h1 : e.mask.ignored <;> by_cases h2 : e.mask.delete_self <;>
    by_cases h3 : e.mask.move_self <;> by_cases h4 : e.wd ∈ w.rmFails <;>
      simp [h1, h2, h3, h4]

theorem handle_rm_fail (w : World) (e : Evt) : ((handle_rm w e).2).fail = w.fail := by
  unfold handle_rm
  by_cases h1 : e.mask.ignored <;> by_cases h2 : e.mask.delete_self <;>
    by_cases h3 : e.mask.move_self <;> by_cases h4 : e.wd ∈ w.rmFails <;>
      simp [h1, h2, h3, h4]

theorem handle_rm_markers (w : World) (e : Evt) :
    ((handle_rm w e).2).trace.filter isMarker
      = w.trace.filter isMarker ++ (if removalClass e then [Action.rmEvt e] else []) := by
  unfold handle_rm removalClass
  by_cases h1 : e.mask.ignored <;> by_cases h2 : e.mask.delete_self <;>
    by_cases h3 : e.mask.move_self <;> by_cases h4 : e.wd ∈ w.rmFails <;>
      simp [h1, h2, h3, h4, List.filter_append, remove_acts_marker, isMarker]

theorem passRm_spec (evts : List Evt) : ∀ w : World,
    ((passRm w evts).1).trace.filter isMarker
        = w.trace.filter isMarker ++ (evts.filter removalClass).map Action.rmEvt ∧
      (passRm w evts).2 = evts.filter (fun e => !removalClass e) ∧
      ((passRm w evts).1).fail = w.fail ∧
      ((passRm w evts).1).dead = w.dead := by
  induction evts with
  | nil => intro w; exact ⟨by simp [passRm], rfl, rfl, rfl⟩
  | cons e rest ih =>
    intro w
    simp only [passRm]
    split
    · rename_i hkeep
      have hrc : removalClass e = false := (handle_rm_keep_iff w e).mp hkeep
      obtain ⟨ih1, ih2, ih3, ih4⟩ := ih (handle_rm w e).2
      refine ⟨?_, ?_, ?_, ?_⟩
      · rw [ih1, handle_rm_markers]
        simp [List.filter_cons, hrc]
      · rw [ih2]
        simp [List.filter_cons, hrc]
      · rw [ih3, handle_rm_fail]
      · rw [ih4, handle_rm_dead]
    · rename_i hcons
      have hrc : removalClass e = true := by
        cases hb : removalClass e
        · exact absurd ((handle_rm_keep_iff w e).mpr hb) (by simp [hcons])
        · rfl
      obtain ⟨ih1, ih2, ih3, ih4⟩ := ih (handle_rm w e).2
      refine ⟨?_, ?_, ?_, ?_⟩
      · rw [ih1, handle_rm_markers]
        simp [List.filter_cons, hrc]
      · rw [ih2]
        simp [List.filter_cons, hrc]
      · rw [ih3, handle_rm_fail]
      · rw [ih4, handle_rm_dead]
    · rename_i hfail
      have hrc : removalClass e = true := by
        cases hb : removalClass e
        · exact absurd ((handle_rm_keep_iff w e).mpr hb) (by simp [hfail])
        · rfl
      obtain ⟨ih1, ih2, ih3, ih4⟩ := ih (handle_rm w e).2
      refine ⟨?_, ?_, ?_, ?_⟩
      · rw [ih1, handle_rm_markers]
        simp [List.filter_cons, hrc]
      · rw [ih2]
        simp [List.filter_cons, hrc]
      · rw [ih3, handle_rm_fail]
      · rw [ih4, handle_rm_dead]

theorem addW_fail (w : World) (p : String) : ((addW w p).1).fail = w.fail := by
  simp only [addW]
  split <;> rfl

theorem addW_markers (w : World) (p : String) :
    ((addW w p).1).trace.filter isMarker = w.trace.filter isMarker := by
  simp only [addW]
  split
  · simp [List.filter_append, isMarker]
  · rfl
  · rfl

theorem addW_moves (w : World) (p : String) :
    ((addW w p).1).trace.filter isMove = w.trace.filter isMove := by
  simp only [addW]
  split
  · simp [List.filter_append, isMove]
  · rfl
  · rfl

theorem scanEntries_fail (es : List FTree) : ∀ (w : World) (wd : Int) (dir : Directory)
    (ip : Bool), ((scanEntries w wd dir ip es).1).fail = w.fail := by
  induction es with
  | nil => intro w wd dir ip; rfl
  | cons t rest ih =>
    intro w wd dir ip
    simp only [scanEntries]
    split
    · rfl
    · split
      · rfl
      · exact ih w wd dir ip
      · split
        · split
          · exact ih w wd dir ip
          · exact ih w wd dir ip
        · split
          · exact ih _ wd _ ip
          · exact ih w wd dir ip

theorem scanEntries_markers (es : List FTree) : ∀ (w : World) (wd : Int)
    (dir : Directory) (ip : Bool),
    ((scanEntries w wd dir ip es).1).trace.filter isMarker = w.trace.filter isMarker := by
  induction es with
  | nil => intro w wd dir ip; rfl
  | cons t rest ih =>
    intro w wd dir ip
    simp only [scanEntries]
    split
    · rfl
    · split
      · rfl
      · exact ih w wd dir ip
      · split
        · split
          · exact ih w wd dir ip
          · exact ih w wd dir ip
        · split
          · rw [ih]
            simp [List.filter_append, emit_acts_marker]
          · exact ih w wd dir ip

theorem scanEntries_false_trace (es : List FTree) : ∀ (w : World) (wd : Int)
    (dir : Directory), ((scanEntries w wd dir false es).1).trace = w.trace := by
  induction es with
  | nil => intro w wd dir; rfl
  | cons t rest ih =>
    intro w wd dir
    simp only [scanEntries]
    split
    · rfl
    · split
      · rfl
      · exact ih w wd dir
      · split
        · split
          · exact ih w wd dir
          · exact ih w wd dir
        · split
          · rename_i hcond
            simp at hcond
          · exact ih w wd dir

theorem watchW_pres {α : Type} (F : World → α) (ip : Bool)
    (hAdd : ∀ (w : World) (p : String), F ((addW w p).1) = F w)
    (hScan : ∀ (es : List FTree) (w : World) (wd : Int) (dir : Directory),
      F ((scanEntries w wd dir ip es).1) = F w)
    (hDead : ∀ w : World, F { w with dead := true } = F w) :
    ∀ (fuel : Nat) (ps : List String) (w : World), F (watchW fuel w ps ip) = F w := by
  intro fuel
  induction fuel with
  | zero =>
    intro ps w
    cases ps with
    | nil => rfl
    | cons a l => exact hDead w
  | succ n ih =>
    intro ps w
    cases ps with
    | nil => rfl
    | cons root rest =>
      simp only [watchW]
      split
      · rfl
      · split
        · rename_i w' e heq
          rw [ih rest w']
          have h2 := hAdd w root
          rw [heq] at h2
          exact h2
        · rename_i w' wd heq
          split
          · rw [hDead w']
            have h2 := hAdd w root
            rw [heq] at h2
            exact h2
          · rename_i dir hlk
            split
            · rename_i hres
              rw [ih]
              rw [hScan]
              have h2 := hAdd w root
              rw [heq] at h2
              exact h2
            · rw [hDead w']
              have h2 := hAdd w root
              rw [heq] at h2
              exact h2

theorem watchW_fail (fuel : Nat) (ps : List String) (w : World) (ip : Bool) :
    (watchW fuel w ps ip).fail = w.fail :=
  watchW_pres (fun u => u.fail) ip (fun u p => addW_fail u p)
    (fun es u wd dir => scanEntries_fail es u wd dir ip) (fun _ => rfl) fuel ps w

theorem watchW_markers (fuel : Nat) (ps : List String) (w : World) (ip : Bool) :
    (watchW fuel w ps ip).trace.filter isMarker = w.trace.filter isMarker :=
  watchW_pres (fun u => u.trace.filter isMarker) ip (fun u p => addW_markers u p)
    (fun es u wd dir => scanEntries_markers es u wd dir ip) (fun _ => rfl) fuel ps w

theorem watchW_moves (fuel : Nat) (ps : List String) (w : World) :
    (watchW fuel w ps false).trace.filter isMove = w.trace.filter isMove :=
  watchW_pres (fun u => u.trace.filter isMove) false (fun u p => addW_moves u p)
    (fun es u wd dir => by dsimp only; rw [scanEntries_false_trace es u wd dir])
    (fun _ => rfl) fuel ps w

theorem handleW_fail (w : World) (e : Evt) (s : Bool) :
    ((handleW w e s).1).fail = w.fail := by
  simp only [handleW]
  split
  · rfl
  · split
    · rfl
    · split
      · rfl
      · rfl
      · split
        · rfl
        · split
          · exact watchW_fail w.fuel _ w false
          · split
            · split <;> split <;> rfl
            · rfl

theorem handleW_markers (w : World) (e : Evt) (s : Bool) :
    ((handleW w e s).1).trace.filter isMarker = w.trace.filter isMarker := by
  simp only [handleW]
  split
  · rfl
  · split
    · rfl
    · split
      · rfl
      · rfl
      · split
        · rfl
        · split
          · exact watchW_markers w.fuel _ w false
          · split
            · split <;> split <;>
                simp [List.filter_append, emit_acts_marker, isMarker]
            · rfl

theorem pass2_dead (l : List Evt) : ∀ (w : World) (s : Bool), w.dead = true →
    pass2 w s l = w := by
  cases l with
  | nil => intro w s h; rfl
  | cons e rest =>
    intro w s h
    simp only [pass2]
    rw [if_pos h]

theorem pass2_fail (l : List Evt) : ∀ (w : World) (s : Bool),
    (pass2 w s l).fail = w.fail := by
  induction l with
  | nil => intro w s; rfl
  | cons e rest ih =>
    intro w s
    simp only [pass2]
    split
    · rfl
    · rw [ih, handleW_fail]

theorem pass2_markers (l : List Evt) : ∀ (w : World) (s : Bool),
    (pass2 w s l).dead = false →
    (pass2 w s l).trace.filter isMarker
      = w.trace.filter isMarker ++ l.map Action.crEvt := by
  induction l with
  | nil => intro w s h; simp [pass2]
  | cons e rest ih =>
    intro w s h
    simp only [pass2] at h ⊢
    by_cases hd : w.dead = true
    · rw [if_pos hd] at h
      exact absurd h (by simp [hd])
    · rw [if_neg hd] at h ⊢
      rw [ih _ _ h, handleW_markers]
      simp [List.filter_append, List.filter_cons, isMarker]

theorem processBatch_fail (w : World) (evts : List Evt) :
    (processBatch w evts).fail = w.fail := by
  simp only [processBatch]
  rw [pass2_fail]
  exact (passRm_spec evts w).2.2.1

theorem runLoop_dead (rs : List ReadResult) : ∀ w : World, w.dead = true →
    runLoop w rs = some w := by
  induction rs with
  | nil => intro w h; rfl
  | cons r rest ih =>
    intro w h
    simp only [runLoop, runStep]
    rw [if_pos h]
    exact ih w h

theorem runLoop_none (rs : List ReadResult) : ∀ w : World, runLoop w rs = none →
    (w.fail = true ∧ headErr rs = true) ∨ hasConsecErr rs = true := by
  induction rs with
  | nil => intro w h; simp [runLoop] at h
  | cons r rest ih =>
    intro w h
    by_cases hd : w.dead = true
    · rw [runLoop_dead (r :: rest) w hd] at h
      simp at h
    · cases r with
      | ok evts =>
        have hstep : runLoop w (ReadResult.ok evts :: rest)
            = runLoop (processBatch { w with fail := false } evts) rest := by
          simp only [runLoop, runStep]
          rw [if_neg hd]
        rw [hstep] at h
        rcases ih _ h with ⟨hf, _⟩ | hcons
        · rw [processBatch_fail] at hf
          simp at hf
        · right
          simpa [hasConsecErr] using hcons
      | err =>
        by_cases hf : w.fail = true
        · left
          exact ⟨hf, rfl⟩
        · have hstep : runLoop w (ReadResult.err :: rest)
              = runLoop { w with fail := true } rest := by
            simp only [runLoop, runStep]
            rw [if_neg hd, if_neg hf]
          rw [hstep] at h
          rcases ih _ h with ⟨_, hhd⟩ | hcons
          · right
            cases rest with
            | nil => simp [headErr] at hhd
            | cons r2 rest2 =>
              cases r2 with
              | ok l => simp [headErr] at hhd
              | err => simp [hasConsecErr]
          · right
            cases rest with
            | nil => simp [hasConsecErr] at hcons
            | cons r2 rest2 =>
              cases r2 with
              | ok l => simpa [hasConsecErr] using hcons
              | err => simp [hasConsecErr]

/-- Claim C5: for every batch (that the process survives), the
processing markers of the trace show all removal-class events applied
first, in arrival order, followed by all surviving creation-class
events, in arrival order, regardless of how the two classes interleave
in the batch. -/
theorem claimC5 (w : World) (evts : List Evt)
    (h : (processBatch w evts).dead = false) :
    (processBatch w evts).trace.filter isMarker
      = w.trace.filter isMarker
        ++ (evts.filter removalClass).map Action.rmEvt
        ++ (evts.filter (fun e => !removalClass e)).map Action.crEvt := by
  obtain ⟨h1, h2, h3, h4⟩ := passRm_spec evts w
  simp only [processBatch] at h ⊢
  rw [pass2_markers _ _ _ h, h1, h2, List.append_assoc]

theorem claimC5_wit :
    ((processBatch wC5 [eC5a, eC5b]).dead = false) ∧
      (processBatch wC5 [eC5a, eC5b]).trace.filter isMarker
        = wC5.trace.filter isMarker
          ++ (([eC5a, eC5b].filter removalClass).map Action.rmEvt)
          ++ (([eC5a, eC5b].filter (fun e => !removalClass e)).map Action.crEvt) :=
  ⟨by decide, claimC5 wC5 [eC5a, eC5b] (by decide)⟩

/-- Claim C6 counterexample: the session is conceptually in in-place
mode, a creation event flagged as a directory arrives for the new
subdirectory sub, whose listing holds an already-present matching file
a.mp4 and an ignorable directory DSC_2024.  The claim asserts the scan
moves the file and skips the ignorable directory; the code passes
inplace hard-coded to false to the scan, so no move is attempted at
all and the ignorable directory is watched rather than skipped. -/
theorem claimC6_cex :
    ((handleW wC6 eC6 false).1).trace
        = [Action.addWatch ("sub") 2, Action.addWatch ("sub/DSC_2024") 3] ∧
      ((handleW wC6 eC6 false).1).trace.filter isMove = [] ∧
      ((handleW wC6 eC6 false).1).dead = false := by decide

/-- Claim C6 as amended: a creation-class event flagged as a directory
triggers the recursive scan with the in-place flag disabled regardless
of the session mode, so that scan attempts no move of already-present
files (the move-attempt actions of the trace are unchanged), and with
the in-place flag disabled no directory name is ignorable. -/
theorem claimC6_amended :
    (∀ (w : World) (e : Evt) (s : Bool), e.mask.isdir = true →
        ((handleW w e s).1).trace.filter isMove = w.trace.filter isMove) ∧
      (∀ name : String, is_ignored_dir name false = false) := by
  constructor
  · intro w e s hdir
    simp only [handleW]
    repeat' split
    all_goals first
      | rfl
      | exact watchW_moves w.fuel _ w
  · intro name
    simp [is_ignored_dir]

theorem claimC6_amended_wit :
    ((handleW wC6 eC6 false).1).trace.filter isMove = wC6.trace.filter isMove ∧
      is_ignored_dir ("DSC_2024") false = false :=
  ⟨claimC6_amended.1 wC6 eC6 false rfl, claimC6_amended.2 ("DSC_2024")⟩

/-- Claim C7: the event loop never terminates from read failures
unless two occur consecutively (a terminated loop implies two adjacent
failures in the read sequence); a single read failure from a clean
state does not terminate and sets the flag, and the following
successful read does not terminate and clears the flag; a read failure
with the flag already set terminates the process. -/
theorem claimC7 :
    (∀ (w : World) (rs : List ReadResult), w.fail = false → runLoop w rs = none →
        hasConsecErr rs = true) ∧
      (∀ (w : World) (evts : List Evt), w.dead = false → w.fail = false →
        runStep w ReadResult.err = some { w with fail := true } ∧
          runStep { w with fail := true } (ReadResult.ok evts)
              = some (processBatch { w with fail := false } evts) ∧
          (processBatch { w with fail := false } evts).fail = false) ∧
      (∀ w : World, w.dead = false → w.fail = true → runStep w ReadResult.err = none) := by
  refine ⟨?_, ?_, ?_⟩
  · intro w rs hf h
    rcases runLoop_none rs w h with ⟨hfa, _⟩ | hc
    · rw [hf] at hfa
      simp at hfa
    · exact hc
  · intro w evts hd hf
    refine ⟨?_, ?_, ?_⟩
    · simp only [runStep]
      rw [if_neg (by simp [hd])]
      show (if w.fail = true then none else some { w with fail := true })
          = some { w with fail := true }
      rw [if_neg (by simp [hf])]
    · simp only [runStep]
      rw [if_neg (by simp [hd])]
    · rw [processBatch_fail]
  · intro w hd hf
    simp only [runStep]
    rw [if_neg (by simp [hd])]
    show (if w.fail = true then none else some { w with fail := true }) = none
    rw [if_pos hf]

theorem claimC7_wit :
    hasConsecErr [ReadResult.err, ReadResult.err] = true ∧
      runStep wC7 ReadResult.err = some { wC7 with fail := true } ∧
      runStep { wC7 with fail := true } ReadResult.err = none :=
  ⟨claimC7.1 wC7 [ReadResult.err, ReadResult.err] rfl rfl,
    (claimC7.2.1 wC7 [] rfl rfl).1,
    claimC7.2.2 { wC7 with fail := true } rfl rfl⟩

/-- Claim C9: a watch-ignored acknowledgment is consumed by pass one
as a no-op on any world (only its processing marker is recorded: no
table change, no removal action); and a self-delete for a present
handle followed by its ignored acknowledgment performs exactly one
logical removal: the entry is erased once and the combined trace
records exactly one removal action. -/
theorem claimC9 (w w' : World) (wd : Int) (d : Directory)
    (h : List.lookup wd w.mon.dirs = some d) :
    (handle_rm w' (Evt.mk wd (EventMask.mk true false false false) none)
        = (RmRes.consumed,
          { w' with trace := w'.trace
              ++ [Action.rmEvt (Evt.mk wd (EventMask.mk true false false false) none)] })) ∧
      ((handle_rm
            ((handle_rm w (Evt.mk wd (EventMask.mk false true false false) none)).2)
            (Evt.mk wd (EventMask.mk true false false false) none)).2).mon.dirs
          = w.mon.dirs.eraseP (fun p => p.1 == wd) ∧
      ((handle_rm
            ((handle_rm w (Evt.mk wd (EventMask.mk false true false false) none)).2)
            (Evt.mk wd (EventMask.mk true false false false) none)).2).trace
          = w.trace
              ++ [Action.rmEvt (Evt.mk wd (EventMask.mk false true false false) none),
                Action.removeWd wd,
                Action.rmEvt (Evt.mk wd (EventMask.mk true false false false) none)] := by
  have hrm : Monitor.remove w.mon wd
      = (MonState.mk (w.mon.dirs.eraseP (fun p => p.1 == wd)) (w.mon.inos.erase d.ino),
        [Action.removeWd wd]) := by
    unfold Monitor.remove
    rw [h]
  refine ⟨rfl, ?_, ?_⟩
  · simp [handle_rm, hrm]
  · simp [handle_rm, hrm]

theorem claimC9_wit :
    ((handle_rm
          ((handle_rm wC9 (Evt.mk 3 (EventMask.mk false true false false) none)).2)
          (Evt.mk 3 (EventMask.mk true false false false) none)).2).trace
      = wC9.trace
          ++ [Action.rmEvt (Evt.mk 3 (EventMask.mk false true false false) none),
            Action.removeWd 3,
            Action.rmEvt (Evt.mk 3 (EventMask.mk true false false false) none)] :=
  (claimC9 wC9 wC9 3 (Directory.new ("b") 7) (by decide)).2.2

/-- Claim C10: the hidden-entry check indexes the first byte of the
name directly, so it is defined exactly on non-empty names: on any
non-empty name the check yields a value (the index is in bounds, and
both the event handler and the recursive scan dispatch through it
totally), while on the empty name the check is partial (none), and an
event carrying an empty name aborts the handler. -/
theorem claimC10 :
    (∀ name : String, name ≠ "" → (hiddenCheck name).isSome = true) ∧
      hiddenCheck "" = none ∧
      (∀ (w : World) (e : Evt) (s : Bool), w.dead = false → e.name = some ("") →
        ((handleW w e s).1).dead = true) := by
  refine ⟨?_, rfl, ?_⟩
  · intro name hne
    cases name with
    | mk data =>
      cases data with
      | nil => exact absurd rfl hne
      | cons c cs => rfl
  · intro w e s hd he
    simp only [handleW]
    rw [if_neg (by simp [hd]), he]
    rfl

theorem claimC10_wit :
    (hiddenCheck ("x")).isSome = true ∧ ((handleW wC10 eC10 false).1).dead = true :=
  ⟨claimC10.1 ("x") (by decide), claimC10.2.2 wC10 eC10 false rfl rfl⟩

end Dcimv
